import Mathlib

/-!
Verification of the inventory-policy calculation engine (`calculations.py`).

The numeric pipeline is embedded over `ℚ`.  Python floats that can be
infinite or NaN (the results of `scipy.stats.norm.ppf`, `numpy.std`,
`numpy.sqrt`) are modelled by the type `FVal` with IEEE-754 multiplication
semantics; Python's built-in `round`, which raises `OverflowError` on an
infinite argument and `ValueError` on NaN, is modelled by `pyRoundF`
returning an `Except`.  The two irrational library functions
`scipy.stats.norm.ppf` (inverse standard normal CDF) and `numpy.sqrt` are
modelled abstractly: any function satisfying the documented properties of
the real one (`PpfModel`, `SqrtModel`); theorems quantify over all such
models, and concrete piecewise-rational instances (`ppfW`, `sqrtW`)
instantiate them for witnesses.
-/

/-- IEEE-style float value: a finite rational, +inf, -inf, or NaN. -/
inductive FVal where
  | num (q : ℚ)
  | inf
  | ninf
  | nan
deriving DecidableEq

/-- IEEE-754 multiplication on `FVal`: NaN propagates; `±inf * 0 = NaN`;
`±inf` times a nonzero finite value or another infinity follows signs. -/
def fmul (x y : FVal) : FVal :=
  match x, y with
  | .nan, _ => .nan
  | _, .nan => .nan
  | .num a, .num b => .num (a * b)
  | .inf, .num b => if 0 < b then .inf else if b < 0 then .ninf else .nan
  | .ninf, .num b => if 0 < b then .ninf else if b < 0 then .inf else .nan
  | .num a, .inf => if 0 < a then .inf else if a < 0 then .ninf else .nan
  | .num a, .ninf => if 0 < a then .ninf else if a < 0 then .inf else .nan
  | .inf, .inf => .inf
  | .inf, .ninf => .ninf
  | .ninf, .inf => .ninf
  | .ninf, .ninf => .inf

/-- Errors Python can raise in this pipeline.  `invalidParameter` is the
typed error the specification asks for; the source never raises it. -/
inductive PyErr where
  | overflowError
  | valueError
  | invalidParameter
deriving DecidableEq

/-- Python's built-in `round` with no `ndigits`: round-half-to-even on the
exact value.  `⌊q⌋` when the fractional part is below 1/2, `⌊q⌋ + 1` when
above, and the even neighbour on an exact half. -/
def roundHalfEven (q : ℚ) : ℤ :=
  if Int.fract q < 1/2 then ⌊q⌋
  else if 1/2 < Int.fract q then ⌊q⌋ + 1
  else if ⌊q⌋ % 2 = 0 then ⌊q⌋ else ⌊q⌋ + 1

/-- Python's `round` on a possibly non-finite float: `OverflowError` on
`±inf`, `ValueError` on NaN, otherwise the rounded integer. -/
def pyRoundF : FVal → Except PyErr ℤ
  | .num q => .ok (roundHalfEven q)
  | .inf => .error .overflowError
  | .ninf => .error .overflowError
  | .nan => .error .valueError

/-- Arithmetic mean of a list, `numpy.mean` on a non-empty list. -/
def listMean (l : List ℚ) : ℚ := l.sum / l.length

/-- Population variance, divisor `n` (what `numpy.std` squares):
`mean((x - mean(x))^2)`. -/
def popVariance (l : List ℚ) : ℚ :=
  (l.map (fun x => (x - listMean l) ^ 2)).sum / l.length

/-- `numpy.std(l)`: NaN on an empty list, else the square root of the
population variance (divisor `n`, `ddof = 0`), taken by the ambient
square-root model `sqrtf`. -/
def np_std (sqrtf : ℚ → FVal) (l : List ℚ) : FVal :=
  if l = [] then .nan else sqrtf (popVariance l)

/-- `calculate_safety_stock` (calculations.py:6-19):
`round(norm.ppf(service_level) * np.std(historical_demand) * np.sqrt(lead_time))`,
with `ppf` and `sqrtf` the ambient models of the two library functions. -/
def calculate_safety_stock (ppf sqrtf : ℚ → FVal) (historical_demand : List ℚ)
    (lead_time service_level : ℚ) : Except PyErr ℤ :=
  pyRoundF (fmul (fmul (ppf service_level) (np_std sqrtf historical_demand))
    (sqrtf lead_time))

/-- A forecast row: point estimate `yhat` and upper confidence bound
`yhat_upper`. -/
structure ForecastRow where
  yhat : ℚ
  yhat_upper : ℚ
deriving DecidableEq

/-- `DataFrame.tail(n)`: the last `n` rows (all rows when `n ≥ length`). -/
def df_tail (fc : List ForecastRow) (n : ℕ) : List ForecastRow :=
  fc.drop (fc.length - n)

/-- `calculate_demand_over_lead_time` (calculations.py:21-29):
`round(forecast_df.tail(lead_time)['yhat_upper'].sum())`. -/
def calculate_demand_over_lead_time (forecast_df : List ForecastRow)
    (lead_time : ℕ) : ℤ :=
  roundHalfEven (((df_tail forecast_df lead_time).map ForecastRow.yhat_upper).sum)

/-- `calculate_optimal_inventory` (calculations.py:31-38):
`round(calculate_demand_over_lead_time(forecast_df, lead_time) + safety_stock)`. -/
def calculate_optimal_inventory (forecast_df : List ForecastRow)
    (lead_time : ℕ) (safety_stock : ℚ) : ℤ :=
  roundHalfEven ((calculate_demand_over_lead_time forecast_df lead_time : ℚ)
    + safety_stock)

/-- `calculate_order_quantity` (calculations.py:40-45):
`max(0, round(optimal_inventory - current_inventory))`. -/
def calculate_order_quantity (optimal_inventory current_inventory : ℚ) : ℤ :=
  max 0 (roundHalfEven (optimal_inventory - current_inventory))

/-- `calculate_cost_savings` (calculations.py:55-67): returns
`(round(annual_savings), inventory_reduction, round(capital_released))`
where `inventory_reduction = max(0, old - optimal)`,
`capital_released = inventory_reduction * component_cost` and
`annual_savings = capital_released * holding_cost_rate`. -/
def calculate_cost_savings (optimal_inventory old_method_inventory
    component_cost holding_cost_rate : ℚ) : ℤ × ℚ × ℤ :=
  let inventory_reduction := max 0 (old_method_inventory - optimal_inventory)
  let capital_released := inventory_reduction * component_cost
  let annual_savings := capital_released * holding_cost_rate
  (roundHalfEven annual_savings, inventory_reduction, roundHalfEven capital_released)

/-- `calculate_cost_savings` with its default `holding_cost_rate=0.20`. -/
def calculate_cost_savings_default (optimal_inventory old_method_inventory
    component_cost : ℚ) : ℤ × ℚ × ℤ :=
  calculate_cost_savings optimal_inventory old_method_inventory component_cost (1/5)

/-- Component identifiers are strings, modelled as character lists. -/
abbrev CompId := List Char

/-- The hard-coded fallback `cost_map` of `get_component_cost`
(calculations.py:77-80), in its Python insertion order. -/
def cost_map : List (CompId × ℚ) :=
  [("RES-".toList, 1/2), ("CAP-".toList, 4/5), ("IC-".toList, 85),
   ("CONN-".toList, 8), ("SENSOR-".toList, 45), ("MODULE-".toList, 120),
   ("LED-".toList, 3/2), ("MOSFET-".toList, 18)]

/-- `get_component_cost` (calculations.py:69-84): exact lookup of the first
row of `current_df` whose `Component_ID` matches; on failure (the bare
`except`), the first entry of `cost_map` whose key the id starts with;
otherwise the default `10.0`. -/
def get_component_cost (component_id : CompId)
    (current_df : List (CompId × ℚ)) : ℚ :=
  match current_df.find? (fun r => r.1 == component_id) with
  | some r => r.2
  | none =>
    match cost_map.find? (fun p => p.1.isPrefixOf component_id) with
    | some p => p.2
    | none => 10

/-! ### Properties of the rounding primitive -/

theorem le_roundHalfEven (q : ℚ) : ⌊q⌋ ≤ roundHalfEven q := by
  unfold roundHalfEven; split_ifs <;> omega

theorem roundHalfEven_le (q : ℚ) : roundHalfEven q ≤ ⌊q⌋ + 1 := by
  unfold roundHalfEven; split_ifs <;> omega

theorem roundHalfEven_intCast (n : ℤ) : roundHalfEven (n : ℚ) = n := by
  unfold roundHalfEven
  rw [Int.fract_intCast, Int.floor_intCast]
  norm_num

theorem roundHalfEven_nonneg {q : ℚ} (h : 0 ≤ q) : 0 ≤ roundHalfEven q := by
  have h0 : (0 : ℤ) ≤ ⌊q⌋ := Int.floor_nonneg.2 h
  have := le_roundHalfEven q
  omega

theorem roundHalfEven_nonpos {q : ℚ} (h : q ≤ 0) : roundHalfEven q ≤ 0 := by
  have h0 : ⌊q⌋ ≤ 0 := by
    have := Int.floor_le_floor h
    simpa using this
  unfold roundHalfEven
  split_ifs with h1 h2 h3 <;> try omega
  all_goals {
    have hne : ⌊q⌋ ≠ 0 := by
      intro hz
      have : Int.fract q = q := by simp [Int.fract, hz]
      rw [this] at h1
      exact h1 (lt_of_le_of_lt h (by norm_num))
    omega }

theorem roundHalfEven_mono {q1 q2 : ℚ} (h : q1 ≤ q2) :
    roundHalfEven q1 ≤ roundHalfEven q2 := by
  have hfl : ⌊q1⌋ ≤ ⌊q2⌋ := Int.floor_le_floor h
  rcases eq_or_lt_of_le hfl with heq | hlt
  · have hfr : Int.fract q1 ≤ Int.fract q2 := by
      simp only [Int.fract]
      rw [heq]
      exact sub_le_sub_right h _
    unfold roundHalfEven
    rw [heq]
    split_ifs <;> first | omega | linarith
  · have h1 := roundHalfEven_le q1
    have h2 := le_roundHalfEven q2
    omega

/-! ### Properties of IEEE multiplication and rounding of non-finite values -/

theorem fmul_eq_num {x y : FVal} {c : ℚ} (h : fmul x y = FVal.num c) :
    (∃ a, x = FVal.num a) ∧ (∃ b, y = FVal.num b) := by
  cases x <;> cases y <;>
    first
      | exact ⟨⟨_, rfl⟩, ⟨_, rfl⟩⟩
      | exact FVal.noConfusion h
      | (exfalso; simp only [fmul] at h; split_ifs at h)

theorem fmul_num_num (a b : ℚ) :
    fmul (FVal.num a) (FVal.num b) = FVal.num (a * b) := rfl

theorem pyRoundF_of_not_num {v : FVal} (h : ∀ q, v ≠ FVal.num q) :
    ∃ e, pyRoundF v = Except.error e ∧ e ≠ PyErr.invalidParameter := by
  cases v with
  | num q => exact absurd rfl (h q)
  | inf => exact ⟨PyErr.overflowError, rfl, by decide⟩
  | ninf => exact ⟨PyErr.overflowError, rfl, by decide⟩
  | nan => exact ⟨PyErr.valueError, rfl, by decide⟩

theorem popVariance_nonneg (l : List ℚ) : 0 ≤ popVariance l := by
  unfold popVariance
  apply div_nonneg
  · apply List.sum_nonneg
    intro x hx
    obtain ⟨y, -, rfl⟩ := List.mem_map.1 hx
    positivity
  · positivity

/-! ### Abstract models of the two irrational library functions

`scipy.stats.norm.ppf` and `numpy.sqrt` return irrational reals, so they
cannot be rational-valued functions with their defining equations.  Each is
modelled by a structure packaging an arbitrary `ℚ → FVal` function with the
documented properties of the library function that the claims rely on;
theorems quantify over all such models. -/

/-- Any function with the documented behaviour of `scipy.stats.norm.ppf`,
the inverse standard normal CDF: `-inf` at 0, `+inf` at 1, NaN outside
`[0,1]`, finite on `(0,1)`, monotone, and nonnegative from the median up. -/
structure PpfModel where
  f : ℚ → FVal
  zero_val : f 0 = FVal.ninf
  one_val : f 1 = FVal.inf
  neg_nan : ∀ q : ℚ, q < 0 → f q = FVal.nan
  gt_one_nan : ∀ q : ℚ, 1 < q → f q = FVal.nan
  finite_val : ∀ q : ℚ, 0 < q → q < 1 → ∃ z, f q = FVal.num z
  mono : ∀ q1 q2 z1 z2, f q1 = FVal.num z1 → f q2 = FVal.num z2 →
    q1 ≤ q2 → z1 ≤ z2
  sign_nonneg : ∀ q z, f q = FVal.num z → 1/2 ≤ q → 0 ≤ z

/-- Any function with the documented behaviour of `numpy.sqrt` on scalars:
NaN on negatives, a nonnegative finite value on nonnegatives, monotone. -/
structure SqrtModel where
  f : ℚ → FVal
  neg_nan : ∀ q : ℚ, q < 0 → f q = FVal.nan
  nonneg_val : ∀ q : ℚ, 0 ≤ q → ∃ y, f q = FVal.num y ∧ 0 ≤ y
  mono : ∀ q1 q2 y1 y2, f q1 = FVal.num y1 → f q2 = FVal.num y2 →
    q1 ≤ q2 → y1 ≤ y2

/-- A concrete `PpfModel` instance for witnesses: the strictly increasing
rational surrogate `q ↦ 1/(3(1-q)) - 1/(3q)` on `(0,1)`, with the same
boundary behaviour as `norm.ppf`. -/
def ppfFun (q : ℚ) : FVal :=
  if q < 0 then FVal.nan
  else if q = 0 then FVal.ninf
  else if q < 1 then FVal.num (1/(3*(1-q)) - 1/(3*q))
  else if q = 1 then FVal.inf
  else FVal.nan

/-- A concrete `SqrtModel` instance for witnesses: NaN on negatives and the
identity on nonnegatives (monotone and nonnegative, which is all the model
requires). -/
def sqrtFun (q : ℚ) : FVal := if q < 0 then FVal.nan else FVal.num q

theorem ppfFun_num_iff {q : ℚ} {z : ℚ} :
    ppfFun q = FVal.num z ↔ 0 < q ∧ q < 1 ∧ z = 1/(3*(1-q)) - 1/(3*q) := by
  unfold ppfFun
  split_ifs with h0 h1 h2 h3
  · constructor
    · intro h; cases h
    · rintro ⟨hq, -, -⟩; exact absurd h0 (not_lt.2 hq.le)
  · constructor
    · intro h; cases h
    · rintro ⟨hq, -, -⟩; exact absurd h1 (ne_of_gt hq)
  · constructor
    · intro h
      exact ⟨lt_of_le_of_ne (not_lt.1 h0) (Ne.symm h1), h2, (FVal.num.inj h).symm⟩
    · rintro ⟨-, -, rfl⟩; rfl
  · constructor
    · intro h; cases h
    · rintro ⟨-, hq, -⟩; exact absurd hq h2
  · constructor
    · intro h; cases h
    · rintro ⟨-, hq, -⟩; exact absurd hq h2

theorem sqrtFun_nonneg_eq {q : ℚ} (h : 0 ≤ q) : sqrtFun q = FVal.num q := by
  unfold sqrtFun
  rw [if_neg (not_lt.2 h)]

/-- `ppfFun` packaged as a `PpfModel`. -/
def ppfW : PpfModel where
  f := ppfFun
  zero_val := by unfold ppfFun; norm_num
  one_val := by unfold ppfFun; norm_num
  neg_nan := fun q h => by unfold ppfFun; rw [if_pos h]
  gt_one_nan := fun q h => by
    have hq0 : (0 : ℚ) < q := by linarith
    unfold ppfFun
    rw [if_neg (not_lt.2 hq0.le), if_neg hq0.ne', if_neg (not_lt.2 h.le),
      if_neg h.ne']
  finite_val := fun q h0 h1 => ⟨_, ppfFun_num_iff.2 ⟨h0, h1, rfl⟩⟩
  mono := by
    intro q1 q2 z1 z2 h1 h2 hle
    obtain ⟨ha1, hb1, hz1⟩ := ppfFun_num_iff.1 h1
    obtain ⟨ha2, hb2, hz2⟩ := ppfFun_num_iff.1 h2
    subst hz1; subst hz2
    have hA : 1/(3*(1-q1)) ≤ 1/(3*(1-q2)) :=
      one_div_le_one_div_of_le (by linarith) (by linarith)
    have hB : 1/(3*q2) ≤ 1/(3*q1) :=
      one_div_le_one_div_of_le (by linarith) (by linarith)
    linarith
  sign_nonneg := by
    intro q z h hq
    obtain ⟨h0, h1, hz⟩ := ppfFun_num_iff.1 h
    subst hz
    have : 1/(3*q) ≤ 1/(3*(1-q)) :=
      one_div_le_one_div_of_le (by linarith) (by linarith)
    linarith

/-- `sqrtFun` packaged as a `SqrtModel`. -/
def sqrtW : SqrtModel where
  f := sqrtFun
  neg_nan := fun q h => by unfold sqrtFun; rw [if_pos h]
  nonneg_val := fun q h => ⟨q, sqrtFun_nonneg_eq h, h⟩
  mono := by
    intro q1 q2 y1 y2 h1 h2 hle
    unfold sqrtFun at h1 h2
    split_ifs at h1 h2
    simp only [FVal.num.injEq] at h1 h2
    subst h1; subst h2
    exact hle

theorem np_std_of_ne_nil (sqrtf : ℚ → FVal) {l : List ℚ} (h : l ≠ []) :
    np_std sqrtf l = sqrtf (popVariance l) := by
  unfold np_std
  rw [if_neg h]

/-- Evaluation of `calculate_safety_stock` on valid inputs, for any models
of `norm.ppf` and `np.sqrt`: the z-score, standard deviation and root of
the lead time are finite and the result is the rounded product. -/
theorem safety_stock_eval (P : PpfModel) (S : SqrtModel) (hist : List ℚ)
    (L s : ℚ) (hne : hist ≠ []) (hL : 0 ≤ L) (h0 : 0 < s) (h1 : s < 1) :
    ∃ z sd r, P.f s = FVal.num z ∧ S.f (popVariance hist) = FVal.num sd
      ∧ 0 ≤ sd ∧ S.f L = FVal.num r ∧ 0 ≤ r
      ∧ calculate_safety_stock P.f S.f hist L s
          = Except.ok (roundHalfEven (z * sd * r)) := by
  obtain ⟨z, hz⟩ := P.finite_val s h0 h1
  obtain ⟨sd, hsd, hsd0⟩ := S.nonneg_val _ (popVariance_nonneg hist)
  obtain ⟨r, hr, hr0⟩ := S.nonneg_val L hL
  refine ⟨z, sd, r, hz, hsd, hsd0, hr, hr0, ?_⟩
  unfold calculate_safety_stock
  rw [np_std_of_ne_nil _ hne, hz, hsd, hr, fmul_num_num, fmul_num_num]
  rfl

theorem ppfW_f : ppfW.f = ppfFun := rfl

theorem sqrtW_f : sqrtW.f = sqrtFun := rfl

theorem popVariance_zero_two : popVariance [0, 2] = 1 := by
  unfold popVariance listMean
  norm_num

theorem ppfFun_quarter : ppfFun (1/4) = FVal.num (-8/9) := by
  rw [ppfFun_num_iff]
  norm_num

/-! ### The claims -/

/-- C1: for every non-empty historical demand series, every lead time
`L ≥ 0` and every service level `s ∈ (0,1)`, `calculate_safety_stock`
returns `round(Φ⁻¹(s) × σ × sqrt(L))`, where `σ` is the (finite,
nonnegative) square root of the population variance of the series —
divisor `n`, not `n-1` — and `Φ⁻¹` is the inverse standard normal CDF.
Stated for every model of `norm.ppf` and `np.sqrt`. -/
theorem safety_stock_matches_formula (P : PpfModel) (S : SqrtModel)
    (hist : List ℚ) (L s : ℚ) (hne : hist ≠ []) (hL : 0 ≤ L)
    (h0 : 0 < s) (h1 : s < 1) :
    ∃ z sd r, P.f s = FVal.num z ∧ S.f (popVariance hist) = FVal.num sd
      ∧ 0 ≤ sd ∧ S.f L = FVal.num r ∧ 0 ≤ r
      ∧ calculate_safety_stock P.f S.f hist L s
          = Except.ok (roundHalfEven (z * sd * r)) :=
  safety_stock_eval P S hist L s hne hL h0 h1

/-- Witness for C1 at the concrete input `hist = [0,2]`, `L = 1`,
`s = 2/3`. -/
theorem safety_stock_matches_formula_witness :
    ∃ z sd r, ppfW.f (2/3) = FVal.num z
      ∧ sqrtW.f (popVariance [0, 2]) = FVal.num sd ∧ 0 ≤ sd
      ∧ sqrtW.f 1 = FVal.num r ∧ 0 ≤ r
      ∧ calculate_safety_stock ppfW.f sqrtW.f [0, 2] 1 (2/3)
          = Except.ok (roundHalfEven (z * sd * r)) :=
  safety_stock_matches_formula ppfW sqrtW [0, 2] 1 (2/3)
    (by simp) (by norm_num) (by norm_num) (by norm_num)

/-- C2 (amended): on an invalid input — service level outside `(0,1)`,
negative lead time, or empty demand series — `calculate_safety_stock`
fails with an error raised by the final `round` call (`OverflowError` or
`ValueError`, never the typed `InvalidParameter` the specification names)
rather than returning a numeric result; in particular it never silently
returns infinity or NaN. -/
theorem safety_stock_invalid_inputs_raise (P : PpfModel) (S : SqrtModel)
    (hist : List ℚ) (L s : ℚ)
    (h : s ≤ 0 ∨ 1 ≤ s ∨ L < 0 ∨ hist = []) :
    ∃ e, calculate_safety_stock P.f S.f hist L s = Except.error e
      ∧ e ≠ PyErr.invalidParameter := by
  have key : ∀ q, fmul (fmul (P.f s) (np_std S.f hist)) (S.f L) ≠ FVal.num q := by
    intro q hq
    obtain ⟨⟨c, hc⟩, ⟨r, hr⟩⟩ := fmul_eq_num hq
    obtain ⟨⟨z, hz⟩, ⟨sd, hsd⟩⟩ := fmul_eq_num hc
    rcases h with h | h | h | h
    · rcases lt_or_eq_of_le h with hlt | heq
      · rw [P.neg_nan s hlt] at hz; cases hz
      · rw [heq, P.zero_val] at hz; cases hz
    · rcases eq_or_lt_of_le h with heq | hlt
      · rw [← heq, P.one_val] at hz; cases hz
      · rw [P.gt_one_nan s hlt] at hz; cases hz
    · rw [S.neg_nan L h] at hr; cases hr
    · rw [h] at hsd; simp [np_std] at hsd
  exact pyRoundF_of_not_num key

/-- Witness for C2's amended statement at service level 0. -/
theorem safety_stock_invalid_inputs_raise_witness :
    ∃ e, calculate_safety_stock ppfW.f sqrtW.f [0, 2] 1 0 = Except.error e
      ∧ e ≠ PyErr.invalidParameter :=
  safety_stock_invalid_inputs_raise ppfW sqrtW [0, 2] 1 0 (Or.inl le_rfl)

/-- C2 counterexample: at the boundary service level 1 (demand `[0,2]`,
lead time 1) the code raises `OverflowError` from `round(inf)`, not the
`InvalidParameter` error the claim requires. -/
theorem safety_stock_error_not_invalid_parameter_cex :
    calculate_safety_stock ppfW.f sqrtW.f [0, 2] 1 1
        = Except.error PyErr.overflowError
      ∧ PyErr.overflowError ≠ PyErr.invalidParameter := by
  constructor
  · unfold calculate_safety_stock
    rw [ppfW.one_val, sqrtW_f, np_std_of_ne_nil _ (by simp),
      popVariance_zero_two, sqrtFun_nonneg_eq (by norm_num : (0:ℚ) ≤ 1)]
    rfl
  · decide

/-- C3 (amended): for every non-empty demand series, lead time `L ≥ 0` and
service level `s ∈ [1/2, 1)`, the safety stock is a nonnegative integer.
(For `s < 1/2` the z-score is negative and the result can be negative.) -/
theorem safety_stock_nonneg_from_median (P : PpfModel) (S : SqrtModel)
    (hist : List ℚ) (L s : ℚ) (hne : hist ≠ []) (hL : 0 ≤ L)
    (hs : 1/2 ≤ s) (h1 : s < 1) :
    ∃ k, calculate_safety_stock P.f S.f hist L s = Except.ok k ∧ 0 ≤ k := by
  obtain ⟨z, sd, r, hz, hsd, hsd0, hr, hr0, heval⟩ :=
    safety_stock_eval P S hist L s hne hL (lt_of_lt_of_le (by norm_num) hs) h1
  have hz0 : 0 ≤ z := P.sign_nonneg s z hz hs
  exact ⟨_, heval, roundHalfEven_nonneg (mul_nonneg (mul_nonneg hz0 hsd0) hr0)⟩

/-- Witness for C3's amended statement at `s = 2/3`. -/
theorem safety_stock_nonneg_from_median_witness :
    ∃ k, calculate_safety_stock ppfW.f sqrtW.f [0, 2] 1 (2/3) = Except.ok k
      ∧ 0 ≤ k :=
  safety_stock_nonneg_from_median ppfW sqrtW [0, 2] 1 (2/3)
    (by simp) (by norm_num) (by norm_num) (by norm_num)

/-- C3 counterexample: at the valid service level `1/4 ∈ (0,1)` (demand
`[0,2]`, lead time 1) the z-score is negative and the code returns the
negative safety stock `-1`. -/
theorem safety_stock_negative_result_cex :
    calculate_safety_stock ppfW.f sqrtW.f [0, 2] 1 (1/4) = Except.ok (-1)
      ∧ (-1 : ℤ) < 0 := by
  constructor
  · unfold calculate_safety_stock
    rw [ppfW_f, sqrtW_f, np_std_of_ne_nil _ (by simp), popVariance_zero_two,
      sqrtFun_nonneg_eq (by norm_num : (0:ℚ) ≤ 1), ppfFun_quarter,
      fmul_num_num, fmul_num_num]
    unfold pyRoundF roundHalfEven
    norm_num [Int.fract]
  · decide

/-- C4: `calculate_optimal_inventory` is exactly
`calculate_demand_over_lead_time + safetyStock` for every forecast series,
lead time and (integer, as produced by `calculate_safety_stock`) safety
stock value: the final `round` is the identity on the integer sum. -/
theorem optimal_inventory_composition (fc : List ForecastRow) (L : ℕ)
    (ss : ℤ) :
    calculate_optimal_inventory fc L (ss : ℚ)
      = calculate_demand_over_lead_time fc L + ss := by
  unfold calculate_optimal_inventory
  rw [show ((calculate_demand_over_lead_time fc L : ℚ) + (ss : ℚ))
      = ((calculate_demand_over_lead_time fc L + ss : ℤ) : ℚ) by push_cast; ring]
  exact roundHalfEven_intCast _

/-- C5: `calculate_order_quantity` is `max(0, round(optimal - current))`,
never negative, and zero whenever current stock covers the target. -/
theorem order_quantity_spec (oi cs : ℚ) :
    calculate_order_quantity oi cs = max 0 (roundHalfEven (oi - cs))
      ∧ 0 ≤ calculate_order_quantity oi cs
      ∧ (oi ≤ cs → calculate_order_quantity oi cs = 0) := by
  refine ⟨rfl, le_max_left _ _, fun h => ?_⟩
  unfold calculate_order_quantity
  exact max_eq_left (roundHalfEven_nonpos (sub_nonpos.2 h))

/-- Witness for C5 at `optimal = 5`, `current = 7`. -/
theorem order_quantity_spec_witness :
    calculate_order_quantity 5 7 = 0 ∧ 0 ≤ calculate_order_quantity 5 7 :=
  ⟨(order_quantity_spec 5 7).2.2 (by norm_num), (order_quantity_spec 5 7).2.1⟩

/-- C6: `calculate_demand_over_lead_time` returns the rounded sum of
`yhat_upper` over the last `min(L, length)` entries of the forecast, and
when the forecast is shorter than `L` it sums all entries instead of
failing. -/
theorem demand_over_lead_time_spec (fc : List ForecastRow) (L : ℕ) :
    calculate_demand_over_lead_time fc L
        = roundHalfEven
            (((fc.reverse.take (min L fc.length)).reverse.map
              ForecastRow.yhat_upper).sum)
      ∧ (fc.length < L →
          calculate_demand_over_lead_time fc L
            = roundHalfEven ((fc.map ForecastRow.yhat_upper).sum)) := by
  have key : (fc.reverse.take (min L fc.length)).reverse
      = fc.drop (fc.length - L) := by
    rw [List.take_reverse, List.reverse_reverse]
    congr 1
    omega
  constructor
  · unfold calculate_demand_over_lead_time df_tail
    rw [key]
  · intro h
    unfold calculate_demand_over_lead_time df_tail
    rw [Nat.sub_eq_zero_of_le h.le, List.drop_zero]

/-- Witness for C6 with a 2-entry forecast and lead time 5. -/
theorem demand_over_lead_time_spec_witness :
    calculate_demand_over_lead_time [ForecastRow.mk 0 1, ForecastRow.mk 0 2] 5
      = roundHalfEven
          (([ForecastRow.mk 0 1, ForecastRow.mk 0 2].map
            ForecastRow.yhat_upper).sum) :=
  (demand_over_lead_time_spec [ForecastRow.mk 0 1, ForecastRow.mk 0 2] 5).2
    (by norm_num)

/-- C7: `calculate_cost_savings` returns
`(round(reduction * cost * rate), reduction, round(reduction * cost))`
with `reduction = max(0, baseline - optimal)`; the reduction and the
annual savings are never negative, and the default holding-cost rate is
`0.20`. -/
theorem cost_savings_spec (oi old cost rate : ℚ) (hc : 0 ≤ cost)
    (hr : 0 ≤ rate) :
    calculate_cost_savings oi old cost rate
        = (roundHalfEven (max 0 (old - oi) * cost * rate), max 0 (old - oi),
            roundHalfEven (max 0 (old - oi) * cost))
      ∧ 0 ≤ max 0 (old - oi)
      ∧ 0 ≤ (calculate_cost_savings oi old cost rate).1
      ∧ calculate_cost_savings_default oi old cost
          = calculate_cost_savings oi old cost (1/5) := by
  have h1 : (0 : ℚ) ≤ max 0 (old - oi) := le_max_left _ _
  refine ⟨rfl, h1, ?_, rfl⟩
  exact roundHalfEven_nonneg (mul_nonneg (mul_nonneg h1 hc) hr)

/-- Witness for C7 at `optimal = 0`, `baseline = 1`, `cost = 5/2`,
`rate = 1/5`. -/
theorem cost_savings_spec_witness :
    calculate_cost_savings 0 1 (5/2) (1/5)
        = (roundHalfEven (max 0 (1 - 0) * (5/2) * (1/5)), max 0 (1 - 0),
            roundHalfEven (max 0 (1 - 0) * (5/2)))
      ∧ 0 ≤ max 0 ((1 : ℚ) - 0)
      ∧ 0 ≤ (calculate_cost_savings 0 1 (5/2) (1/5)).1
      ∧ calculate_cost_savings_default 0 1 (5/2)
          = calculate_cost_savings 0 1 (5/2) (1/5) :=
  cost_savings_spec 0 1 (5/2) (1/5) (by norm_num) (by norm_num)

theorem ppfFun_two_thirds : ppfFun (2/3) = FVal.num (1/2) := by
  rw [ppfFun_num_iff]
  norm_num

/-- C8 (amended): for any models and any fixed non-empty demand series,
the safety stock is monotone non-decreasing in the service level on all of
`(0,1)`, and monotone non-decreasing in the lead time for service levels
`s ∈ [1/2, 1)` (for `s < 1/2` the negative z-score reverses the lead-time
direction). -/
theorem safety_stock_monotone (P : PpfModel) (S : SqrtModel)
    (hist : List ℚ) :
    (∀ L s1 s2 : ℚ, hist ≠ [] → 0 < L → 0 < s1 → s1 < s2 → s2 < 1 →
      ∃ k1 k2, calculate_safety_stock P.f S.f hist L s1 = Except.ok k1
        ∧ calculate_safety_stock P.f S.f hist L s2 = Except.ok k2
        ∧ k1 ≤ k2)
    ∧ (∀ L1 L2 s : ℚ, hist ≠ [] → 0 < L1 → L1 < L2 → 1/2 ≤ s → s < 1 →
      ∃ k1 k2, calculate_safety_stock P.f S.f hist L1 s = Except.ok k1
        ∧ calculate_safety_stock P.f S.f hist L2 s = Except.ok k2
        ∧ k1 ≤ k2) := by
  constructor
  · intro L s1 s2 hne hL h0 h12 h2
    obtain ⟨z1, sd1, r1, hz1, hsd1, hsd01, hr1, hr01, he1⟩ :=
      safety_stock_eval P S hist L s1 hne hL.le h0 (h12.trans h2)
    obtain ⟨z2, sd2, r2, hz2, hsd2, hsd02, hr2, hr02, he2⟩ :=
      safety_stock_eval P S hist L s2 hne hL.le (h0.trans h12) h2
    rw [hsd1] at hsd2
    injection hsd2 with hsd_eq
    rw [hr1] at hr2
    injection hr2 with hr_eq
    have hz12 : z1 ≤ z2 := P.mono s1 s2 z1 z2 hz1 hz2 h12.le
    refine ⟨_, _, he1, he2, roundHalfEven_mono ?_⟩
    rw [← hsd_eq, ← hr_eq]
    exact mul_le_mul_of_nonneg_right
      (mul_le_mul_of_nonneg_right hz12 hsd01) hr01
  · intro L1 L2 s hne hL1 hL12 hs h1
    have h0 : 0 < s := lt_of_lt_of_le (by norm_num) hs
    obtain ⟨z1, sd1, r1, hz1, hsd1, hsd01, hr1, hr01, he1⟩ :=
      safety_stock_eval P S hist L1 s hne hL1.le h0 h1
    obtain ⟨z2, sd2, r2, hz2, hsd2, hsd02, hr2, hr02, he2⟩ :=
      safety_stock_eval P S hist L2 s hne (hL1.trans hL12).le h0 h1
    rw [hz1] at hz2
    injection hz2 with hz_eq
    rw [hsd1] at hsd2
    injection hsd2 with hsd_eq
    have hr12 : r1 ≤ r2 := S.mono L1 L2 r1 r2 hr1 hr2 hL12.le
    have hz0 : 0 ≤ z1 := P.sign_nonneg s z1 hz1 hs
    refine ⟨_, _, he1, he2, roundHalfEven_mono ?_⟩
    rw [← hz_eq, ← hsd_eq]
    exact mul_le_mul_of_nonneg_left hr12 (mul_nonneg hz0 hsd01)

/-- Witness for C8's amended statement. -/
theorem safety_stock_monotone_witness :
    (∃ k1 k2, calculate_safety_stock ppfW.f sqrtW.f [0, 2] 1 (3/5)
        = Except.ok k1
      ∧ calculate_safety_stock ppfW.f sqrtW.f [0, 2] 1 (2/3) = Except.ok k2
      ∧ k1 ≤ k2)
    ∧ (∃ k1 k2, calculate_safety_stock ppfW.f sqrtW.f [0, 2] 1 (2/3)
        = Except.ok k1
      ∧ calculate_safety_stock ppfW.f sqrtW.f [0, 2] 4 (2/3) = Except.ok k2
      ∧ k1 ≤ k2) :=
  ⟨(safety_stock_monotone ppfW sqrtW [0, 2]).1 1 (3/5) (2/3) (by simp)
      (by norm_num) (by norm_num) (by norm_num) (by norm_num),
    (safety_stock_monotone ppfW sqrtW [0, 2]).2 1 4 (2/3) (by simp)
      (by norm_num) (by norm_num) (by norm_num) (by norm_num)⟩

/-- C8 counterexample: at the valid service level 1/4 the safety stock
strictly decreases when the lead time grows from 1 to 16. -/
theorem safety_stock_lead_time_not_monotone_cex :
    calculate_safety_stock ppfW.f sqrtW.f [0, 2] 1 (1/4) = Except.ok (-1)
      ∧ calculate_safety_stock ppfW.f sqrtW.f [0, 2] 16 (1/4) = Except.ok (-14)
      ∧ ¬ ((-1 : ℤ) ≤ -14) := by
  refine ⟨?_, ?_, by decide⟩
  · unfold calculate_safety_stock
    rw [ppfW_f, sqrtW_f, np_std_of_ne_nil _ (by simp), popVariance_zero_two,
      sqrtFun_nonneg_eq (by norm_num : (0:ℚ) ≤ 1), ppfFun_quarter,
      fmul_num_num, fmul_num_num]
    unfold pyRoundF roundHalfEven
    norm_num [Int.fract]
  · unfold calculate_safety_stock
    rw [ppfW_f, sqrtW_f, np_std_of_ne_nil _ (by simp), popVariance_zero_two,
      sqrtFun_nonneg_eq (by norm_num : (0:ℚ) ≤ 16),
      sqrtFun_nonneg_eq (by norm_num : (0:ℚ) ≤ 1), ppfFun_quarter,
      fmul_num_num, fmul_num_num]
    unfold pyRoundF roundHalfEven
    norm_num [Int.fract]

/-- Two prefixes (as `isPrefixOf`) of the same character list are
comparable: one is a prefix of the other. -/
theorem isPrefixOf_comparable : ∀ (s a b : List Char),
    a.isPrefixOf s = true → b.isPrefixOf s = true →
    a.isPrefixOf b = true ∨ b.isPrefixOf a = true := by
  intro s
  induction s with
  | nil =>
    intro a b ha hb
    cases a with
    | nil => left; cases b <;> rfl
    | cons x xs => simp [List.isPrefixOf] at ha
  | cons c cs ih =>
    intro a b ha hb
    cases a with
    | nil => left; cases b <;> rfl
    | cons x xs =>
      cases b with
      | nil => right; rfl
      | cons y ys =>
        simp only [List.isPrefixOf, Bool.and_eq_true, beq_iff_eq] at ha hb ⊢
        obtain ⟨hx, ha'⟩ := ha
        obtain ⟨hy, hb'⟩ := hb
        subst hx
        subst hy
        rcases ih xs ys ha' hb' with h | h
        · exact Or.inl ⟨rfl, h⟩
        · exact Or.inr ⟨rfl, h⟩

/-- No key of the fallback cost table is a prefix of a different key. -/
theorem cost_map_keys_antichain : ∀ a ∈ cost_map.map Prod.fst,
    ∀ b ∈ cost_map.map Prod.fst, a.isPrefixOf b = true → a = b := by
  decide

/-- The keys of the fallback cost table are distinct. -/
theorem cost_map_keys_nodup : (cost_map.map Prod.fst).Nodup := by
  decide

/-- C9: `get_component_cost` never surfaces an error: when the stock table
has a row for the identifier it returns that row's cost; otherwise, when
some key of `cost_map` is a prefix of the identifier, it returns the cost
of the longest such key; and when none matches it returns the default 10. -/
theorem component_cost_lookup_chain (cid : CompId)
    (tbl : List (CompId × ℚ)) :
    ((∃ r ∈ tbl, r.1 = cid) →
        ∃ r ∈ tbl, r.1 = cid ∧ get_component_cost cid tbl = r.2)
      ∧ (tbl.find? (fun r => r.1 == cid) = none →
          ∀ p ∈ cost_map, p.1.isPrefixOf cid = true →
            (∀ q ∈ cost_map, q.1.isPrefixOf cid = true →
              q.1.length ≤ p.1.length) →
            get_component_cost cid tbl = p.2)
      ∧ (tbl.find? (fun r => r.1 == cid) = none →
          (∀ p ∈ cost_map, p.1.isPrefixOf cid = false) →
          get_component_cost cid tbl = 10) := by
  refine ⟨?_, ?_, ?_⟩
  · rintro ⟨r, hr, hre⟩
    have hsome : (tbl.find? (fun r => r.1 == cid)).isSome :=
      List.find?_isSome.2 ⟨r, hr, by simp [hre]⟩
    obtain ⟨r0, hr0⟩ := Option.isSome_iff_exists.1 hsome
    refine ⟨r0, List.mem_of_find?_eq_some hr0, ?_, ?_⟩
    · simpa using List.find?_some hr0
    · unfold get_component_cost
      rw [hr0]
  · intro hnone p hp hpre hmax
    have hsome : (cost_map.find? (fun p => p.1.isPrefixOf cid)).isSome :=
      List.find?_isSome.2 ⟨p, hp, hpre⟩
    obtain ⟨q0, hq0⟩ := Option.isSome_iff_exists.1 hsome
    have hq0mem := List.mem_of_find?_eq_some hq0
    have hq0pre' := List.find?_some hq0
    have hq0pre : q0.1.isPrefixOf cid = true := hq0pre'
    have heq1 : q0.1 = p.1 := by
      rcases isPrefixOf_comparable cid q0.1 p.1 hq0pre hpre with h | h
      · exact cost_map_keys_antichain q0.1 (List.mem_map_of_mem _ hq0mem)
          p.1 (List.mem_map_of_mem _ hp) h
      · exact (cost_map_keys_antichain p.1 (List.mem_map_of_mem _ hp)
          q0.1 (List.mem_map_of_mem _ hq0mem) h).symm
    have heq : q0 = p :=
      List.inj_on_of_nodup_map cost_map_keys_nodup hq0mem hp heq1
    unfold get_component_cost
    rw [hnone, hq0, heq]
  · intro hnone hno
    have h2 : cost_map.find? (fun p => p.1.isPrefixOf cid) = none :=
      List.find?_eq_none.2 (fun x hx => by simp [hno x hx])
    unfold get_component_cost
    rw [hnone, h2]

/-- Witness for C9: the fallback chain prices `IC-42` by the `IC-` prefix. -/
theorem component_cost_lookup_chain_witness :
    get_component_cost ("IC-42".toList) [] = 85 :=
  (component_cost_lookup_chain ("IC-42".toList) []).2.1 rfl
    ("IC-".toList, (85 : ℚ)) (by simp [cost_map]) (by decide) (by decide)

/-- C10: every calculator rounds with Python's round-half-to-even: the
shared rounding primitive sends `n + 1/2` to the even neighbour, and each
of the four calculators exhibits a half-case rounding toward even (0.5 to
0 and 2.5 to 2, not away from zero). -/
theorem rounding_half_to_even_demos :
    (∀ n : ℤ, roundHalfEven ((n : ℚ) + 1/2) = if n % 2 = 0 then n else n + 1)
      ∧ calculate_safety_stock ppfW.f sqrtW.f [0, 2] 1 (2/3) = Except.ok 0
      ∧ calculate_demand_over_lead_time [ForecastRow.mk 0 (1/2)] 1 = 0
      ∧ calculate_demand_over_lead_time [ForecastRow.mk 0 (3/2)] 1 = 2
      ∧ calculate_order_quantity (21/2) 10 = 0
      ∧ calculate_order_quantity (25/2) 10 = 2
      ∧ calculate_cost_savings 0 1 (5/2) (1/5) = (0, 1, 2) := by
  refine ⟨?_, ?_, ?_, ?_, ?_, ?_, ?_⟩
  · intro n
    have h1 : Int.fract ((n : ℚ) + 1/2) = 1/2 := by
      rw [Int.fract_int_add]
      norm_num [Int.fract]
    have h2 : ⌊(n : ℚ) + 1/2⌋ = n := by
      rw [Int.floor_int_add]
      norm_num
    unfold roundHalfEven
    rw [h1, h2]
    norm_num
  · unfold calculate_safety_stock
    rw [ppfW_f, sqrtW_f, np_std_of_ne_nil _ (by simp), popVariance_zero_two,
      sqrtFun_nonneg_eq (by norm_num : (0:ℚ) ≤ 1), ppfFun_two_thirds,
      fmul_num_num, fmul_num_num]
    unfold pyRoundF roundHalfEven
    norm_num [Int.fract]
  · unfold calculate_demand_over_lead_time df_tail roundHalfEven
    norm_num [Int.fract]
  · unfold calculate_demand_over_lead_time df_tail roundHalfEven
    norm_num [Int.fract]
  · unfold calculate_order_quantity roundHalfEven
    norm_num [Int.fract]
  · unfold calculate_order_quantity roundHalfEven
    norm_num [Int.fract]
  · unfold calculate_cost_savings roundHalfEven
    norm_num [Int.fract]
